import Mathlib

/-!
Verification of the Argo dataset transformation layer (`argopy/xarray.py`).

The development shallowly embeds the four components of the accessor —
the profile identifier codec (`ArgoAccessor.uid`), the type normalizer
(`ArgoAccessor.cast_types`), the data-mode reconciler
(`ArgoAccessor.filter_data_mode`) and the shape reshaper
(`ArgoAccessor.point2profile` / `ArgoAccessor.profile2point`) — as
executable Lean functions, and proves (or refutes) the documented
properties of each component.

Modelling conventions used throughout:
* numpy floating point `NaN` and `NaT` values are modelled as `Option`
  `none` (only definedness of a value matters to the properties below,
  never floating point rounding);
* in the domain of the codec claims all quantities are below `10^5`, so
  every float computation in `uid` (`1e5 * wmo + cyc`, `|uid| / 1e5`) is
  exact (magnitudes stay far below `2^53`); the embedding therefore uses
  exact integer arithmetic, with Python's `int(...)` truncation toward
  zero made explicit;
* an xarray `Dataset` is modelled as the list of its records (point form)
  or of its variables, keeping exactly the fields the transformation
  under study reads or writes.
-/

/-! ## Profile identifier codec (`ArgoAccessor.uid`, xarray.py lines 285-330)

`le = LabelEncoder().fit(['A', 'D'])` maps 'A' ↦ 0 and 'D' ↦ 1.
`encode_direction(x) = where(1 - le.transform(x) == 0, -1, 1 - le.transform(x))`,
hence 'A' ↦ 1 and 'D' ↦ -1.
`decode_direction(x) = le.inverse_transform(1 - where(x == -1, 0, x))`,
hence 1 ↦ 'A', 0 ↦ 'D', -1 ↦ 'D'.
-/

inductive Direction where
  | A : Direction
  | D : Direction
deriving DecidableEq, Repr

/-- `encode_direction` of xarray.py line 309: 'A' ↦ 1, 'D' ↦ -1. -/
def encode_direction : Direction → Int
  | .A => 1
  | .D => -1

/-- `decode_direction` of xarray.py line 313, applied to `np.sign(uid)`:
`y = 1 - np.where(x == -1, 0, x)`, then `le.inverse_transform(y)` (0 ↦ 'A', else 'D'). -/
def decode_direction (x : Int) : Direction :=
  if 1 - (if x = -1 then 0 else x) = 0 then .A else .D

/-- The encoder branch of `uid` (line 322):
`encode_direction(direction) * int(1e5 * wmo + cyc)`.  For `wmo, cyc < 10^5`
the float arithmetic is exact, so plain integer arithmetic is faithful. -/
def encode_uid (wmo cyc : Nat) (direction : Direction) : Int :=
  encode_direction direction * (100000 * (wmo : Int) + (cyc : Int))

/-- The decoder branch of `uid` (lines 326-330):
`drc = decode_direction(np.sign(uid))`, `wmo = int(|uid| / 1e5)`,
`cyc = -int(1e5 * wmo - |uid|)`.  Since `1e5 * wmo - |uid| = -(|uid| mod 1e5)`
is a nonpositive integer (exact in float), truncation toward zero gives
`cyc = |uid| mod 1e5`, and `wmo = ⌊|uid| / 1e5⌋`. -/
def decode_uid (u : Int) : Nat × Nat × Direction :=
  (u.natAbs / 100000, u.natAbs % 100000, decode_direction u.sign)

/-- **C1 counterexample.**  The claim "decode(encode(platform, cycle,
direction)) recovers the triple for every platform, cycle in `[0, 10^5)` and
every direction" fails at the concrete input `(0, 0, Ascending)`:
the encoded identifier is `0`, whose sign is `0`, and `decode_direction 0 = 'D'`,
so decoding returns the Descending direction. -/
theorem uid_zero_ascending_not_recovered :
    decode_uid (encode_uid 0 0 .A) = (0, 0, Direction.D) ∧
      (0, 0, Direction.D) ≠ ((0, 0, Direction.A) : Nat × Nat × Direction) := by
  constructor
  · rfl
  · decide

/-- **C1 (amended).**  For every platform in `[0, 10^5)`, cycle in `[0, 10^5)`
and direction, with the single exception of the triple `(0, 0, Ascending)`,
decoding the encoded profile identifier recovers exactly the original triple.
(At `(0, 0, Ascending)` the encoded identifier is `0` and decodes as
Descending; `(0, 0, Descending)` also encodes to `0`, so encode is not
injective at that one point of the domain either.) -/
theorem uid_encode_decode_roundtrip (p c : Nat) (d : Direction)
    (hp : p < 100000) (hc : c < 100000)
    (hz : ¬(p = 0 ∧ c = 0 ∧ d = Direction.A)) :
    decode_uid (encode_uid p c d) = (p, c, d) := by
  have harith : (100000 * p + c) / 100000 = p ∧ (100000 * p + c) % 100000 = c := by
    omega
  cases d with
  | A =>
    have hpos : 100000 * p + c ≠ 0 := by
      rcases Nat.eq_zero_or_pos p with rfl | hp0
      · rcases Nat.eq_zero_or_pos c with rfl | hc0
        · exact absurd ⟨rfl, rfl, rfl⟩ hz
        · omega
      · omega
    obtain ⟨n, hn⟩ : ∃ n, 100000 * p + c = n + 1 := by
      rcases Nat.exists_eq_succ_of_ne_zero hpos with ⟨n, hn⟩
      exact ⟨n, by omega⟩
    have henc : encode_uid p c .A = ((n + 1 : Nat) : Int) := by
      simp only [encode_uid, encode_direction, one_mul]
      push_cast [← hn]
      ring
    rw [decode_uid, henc]
    have hsign : ((n + 1 : Nat) : Int).sign = 1 := rfl
    have habs : ((n + 1 : Nat) : Int).natAbs = n + 1 := rfl
    rw [hsign, habs, ← hn]
    simp only [decode_direction]
    norm_num
    exact ⟨harith.1, harith.2⟩
  | D =>
    rcases Nat.eq_zero_or_pos (100000 * p + c) with hz0 | hpos
    · have hp0 : p = 0 := by omega
      have hc0 : c = 0 := by omega
      subst hp0; subst hc0
      rfl
    · obtain ⟨n, hn⟩ : ∃ n, 100000 * p + c = n + 1 := by
        rcases Nat.exists_eq_succ_of_ne_zero (by omega : 100000 * p + c ≠ 0) with ⟨n, hn⟩
        exact ⟨n, by omega⟩
      have henc : encode_uid p c .D = -((n + 1 : Nat) : Int) := by
        simp only [encode_uid, encode_direction]
        push_cast [← hn]
        ring
      rw [decode_uid, henc]
      have hsign : (-((n + 1 : Nat) : Int)).sign = -1 := rfl
      have habs : (-((n + 1 : Nat) : Int)).natAbs = n + 1 := rfl
      rw [hsign, habs, ← hn]
      simp only [decode_direction]
      norm_num
      exact ⟨harith.1, harith.2⟩

/-- Witness for `uid_encode_decode_roundtrip` at the concrete triple
`(42, 7, Descending)`. -/
theorem uid_encode_decode_roundtrip_witness :
    decode_uid (encode_uid 42 7 .D) = (42, 7, Direction.D) :=
  uid_encode_decode_roundtrip 42 7 .D (by decide) (by decide) (by decide)

/-! ## Structural mode detection and reshaper preconditions
(`ArgoAccessor.__init__` lines 45-50, `point2profile` lines 336-337,
`profile2point` lines 434-435) -/

/-- `ArgoAccessor.__init__`: the structural mode tag.  `N_PROF` is tested
first, then `index`; a dataset with neither raises
`InvalidDatasetStructure`. -/
def accessor_type (dims : List String) : Except String String :=
  if "N_PROF" ∈ dims then .ok "profile"
  else if "index" ∈ dims then .ok "point"
  else .error "Argo dataset structure not recognised"

/-- The precondition check opening `point2profile` (line 336). -/
def point2profile_check (ty : String) : Except String Unit :=
  if ty ≠ "point" then .error "Method only available to a collection of points"
  else .ok ()

/-- The precondition check opening `profile2point` (line 434). -/
def profile2point_check (ty : String) : Except String Unit :=
  if ty ≠ "profile" then
    .error "Method only available for a collection of profiles (N_PROF dimemsion)"
  else .ok ()

/-- Whether an `Except` result signals an error. -/
def isErr {ε β : Type} : Except ε β → Bool
  | .error _ => true
  | .ok _ => false

/-- **C9 (confirmed).**  `point2profile` signals a structural error iff the
dataset's mode tag is not `point`; `profile2point` signals one iff the tag is
not `profile`; and constructing the accessor signals one iff the dataset has
neither an `index` nor an `N_PROF` dimension.  All three are surfaced as
raised exceptions (`Except.error`), immediately fatal to the call. -/
theorem structural_error_iff (dims : List String) (ty : String) :
    (isErr (accessor_type dims) = true ↔ ("index" ∉ dims ∧ "N_PROF" ∉ dims)) ∧
      (isErr (point2profile_check ty) = true ↔ ty ≠ "point") ∧
      (isErr (profile2point_check ty) = true ↔ ty ≠ "profile") := by
  refine ⟨?_, ?_, ?_⟩
  · by_cases h1 : "N_PROF" ∈ dims <;> by_cases h2 : "index" ∈ dims <;>
      simp [accessor_type, isErr, h1, h2]
  · by_cases h : ty = "point" <;> simp [point2profile_check, isErr, h]
  · by_cases h : ty = "profile" <;> simp [profile2point_check, isErr, h]

/-! ## Data-mode reconciler: which physical quantities get merged
(`ArgoAccessor.filter_data_mode` lines 237-268) -/

/-- `possible_list = ['PRES', 'TEMP', 'PSAL', 'DOXY']` (line 238). -/
def possible_list : List String := ["PRES", "TEMP", "PSAL", "DOXY"]

/-- `plist = [p for p in possible_list if p in ds.data_vars]` (line 239). -/
def plist_of (data_vars : List String) : List String :=
  possible_list.filter (fun p => p ∈ data_vars)

/-- The guard of the DOXY merge branch (lines 261 and 265):
`if 'doxy' in plist`.  Note the lower-case literal. -/
def doxy_branch_taken (data_vars : List String) : Bool :=
  "doxy" ∈ plist_of data_vars

/-- **C6 (code bug).**  The claim says the reconciler produces one merged
variable for each physical quantity present among PRES, TEMP, PSAL, DOXY.
But `plist` only ever contains upper-case names from `possible_list`, while
the DOXY merge branch tests for the lower-case string `'doxy'`, so the
branch is dead: even on a dataset whose variables include `DOXY` (which does
land in `plist`, second conjunct) no merged DOXY variable is ever built. -/
theorem doxy_branch_dead (data_vars : List String) :
    doxy_branch_taken data_vars = false ∧
      "DOXY" ∈ plist_of ["PRES", "TEMP", "PSAL", "DOXY", "DOXY_ADJUSTED"] := by
  constructor
  · have h : "doxy" ∉ plist_of data_vars := by
      intro hmem
      have h2 : "doxy" ∈ possible_list := List.mem_of_mem_filter hmem
      simp [possible_list] at h2
    simp [doxy_branch_taken, h]
  · decide

/-! ## Mutation / metadata frame of the transformations (C7)

Global metadata of a dataset is modelled as: the optional `history`
attribute, the remaining global attributes, and the low-level `encoding`
mapping.  Each transformation's effect on this triple is read off the
source:
* `cast_types` (lines 58-152) touches only per-variable attributes and
  returns `self._obj` itself: global attrs, history and encoding all
  unchanged, and no new dataset value is produced;
* `point2profile` (lines 419-430) builds a fresh dataset, then sets
  `new_ds.encoding = self.encoding`, `new_ds.attrs = self.attrs` and appends
  the history entry `'Transformed with point2profile'`;
* `profile2point` (lines 466-472) does the same with
  `'Transformed with profile2point'`;
* `filter_data_mode` (lines 276-281) sets `final.attrs = ds.attrs` and
  appends `'Variables filtered according to DATA_MODE'`, but never copies
  `ds.encoding`, so the merged dataset's encoding is empty.
-/

structure DsMeta where
  history : Option String
  attrs_other : List (String × String)
  encoding : List (String × String)
deriving DecidableEq, Repr

/-- `ArgoAccessor._add_history` (lines 52-56). -/
def add_history (m : DsMeta) (txt : String) : DsMeta :=
  { m with
    history := match m.history with
      | some h => some (h ++ "; " ++ txt)
      | none => some txt }

/-- Effect of `cast_types` on global metadata: none (it mutates per-variable
attributes of `self._obj` in place and returns the same object). -/
def cast_types_meta (m : DsMeta) : DsMeta := m

/-- Effect of `point2profile` on global metadata. -/
def point2profile_meta (m : DsMeta) : DsMeta :=
  add_history
    { history := m.history, attrs_other := m.attrs_other, encoding := m.encoding }
    "Transformed with point2profile"

/-- Effect of `profile2point` on global metadata. -/
def profile2point_meta (m : DsMeta) : DsMeta :=
  add_history
    { history := m.history, attrs_other := m.attrs_other, encoding := m.encoding }
    "Transformed with profile2point"

/-- Effect of `filter_data_mode` on global metadata: `final.attrs = ds.attrs`
plus a history entry; `final.encoding` is never assigned, so the low-level
encoding hints are lost. -/
def filter_data_mode_meta (m : DsMeta) : DsMeta :=
  add_history
    { history := m.history, attrs_other := m.attrs_other, encoding := [] }
    "Variables filtered according to DATA_MODE"

/-- **C7 counterexample.**  The claim says *each* of the four transformations
returns a result carrying the original encoding hints and one appended
history entry.  At the concrete metadata state below, (a) `cast_types`
returns its input unchanged — in particular with no new history entry
(appending any entry would have produced `"h0; ..." ≠ "h0"`), and
(b) `filter_data_mode` drops the encoding hints (`[("source","nc")] ↦ []`). -/
theorem cast_types_meta_unchanged :
    cast_types_meta ⟨some "h0", [("inst", "x")], [("source", "nc")]⟩ =
        ⟨some "h0", [("inst", "x")], [("source", "nc")]⟩ ∧
      (add_history ⟨some "h0", [("inst", "x")], [("source", "nc")]⟩
          "Transformed with point2profile").history ≠ some "h0" ∧
      (filter_data_mode_meta ⟨some "h0", [("inst", "x")], [("source", "nc")]⟩).encoding = [] ∧
      ([("source", "nc")] : List (String × String)) ≠ [] := by
  refine ⟨rfl, ?_, rfl, by decide⟩
  simp [add_history]

/-- **C7 (amended).**  `point2profile` and `profile2point` produce new dataset
values that carry forward the original global metadata and low-level encoding
hints and append exactly one history entry describing the transformation;
`filter_data_mode` carries forward the global metadata and appends one
history entry but does **not** carry forward the encoding hints (its result
has empty encoding); `cast_types` leaves global metadata, history and
encoding entirely unchanged and appends no history entry (it operates on the
input dataset in place and returns it). -/
theorem transformation_meta_frame (m : DsMeta) (h0 : String)
    (hh : m.history = some h0) :
    ((point2profile_meta m).history = some (h0 ++ "; " ++ "Transformed with point2profile") ∧
      (point2profile_meta m).attrs_other = m.attrs_other ∧
      (point2profile_meta m).encoding = m.encoding) ∧
    ((profile2point_meta m).history = some (h0 ++ "; " ++ "Transformed with profile2point") ∧
      (profile2point_meta m).attrs_other = m.attrs_other ∧
      (profile2point_meta m).encoding = m.encoding) ∧
    ((filter_data_mode_meta m).history =
        some (h0 ++ "; " ++ "Variables filtered according to DATA_MODE") ∧
      (filter_data_mode_meta m).attrs_other = m.attrs_other ∧
      (filter_data_mode_meta m).encoding = []) ∧
    cast_types_meta m = m := by
  refine ⟨⟨?_, rfl, rfl⟩, ⟨?_, rfl, rfl⟩, ⟨?_, rfl, rfl⟩, rfl⟩ <;>
    simp [point2profile_meta, profile2point_meta, filter_data_mode_meta, add_history, hh]

/-- Witness for `transformation_meta_frame` at a concrete metadata state. -/
theorem transformation_meta_frame_witness :
    ((point2profile_meta ⟨some "created", [], [("s", "nc")]⟩).history =
        some ("created" ++ "; " ++ "Transformed with point2profile") ∧
      (point2profile_meta ⟨some "created", [], [("s", "nc")]⟩).attrs_other = [] ∧
      (point2profile_meta ⟨some "created", [], [("s", "nc")]⟩).encoding = [("s", "nc")]) ∧
    ((profile2point_meta ⟨some "created", [], [("s", "nc")]⟩).history =
        some ("created" ++ "; " ++ "Transformed with profile2point") ∧
      (profile2point_meta ⟨some "created", [], [("s", "nc")]⟩).attrs_other = [] ∧
      (profile2point_meta ⟨some "created", [], [("s", "nc")]⟩).encoding = [("s", "nc")]) ∧
    ((filter_data_mode_meta ⟨some "created", [], [("s", "nc")]⟩).history =
        some ("created" ++ "; " ++ "Variables filtered according to DATA_MODE") ∧
      (filter_data_mode_meta ⟨some "created", [], [("s", "nc")]⟩).attrs_other = [] ∧
      (filter_data_mode_meta ⟨some "created", [], [("s", "nc")]⟩).encoding = []) ∧
    cast_types_meta ⟨some "created", [], [("s", "nc")]⟩ = ⟨some "created", [], [("s", "nc")]⟩ :=
  transformation_meta_frame ⟨some "created", [], [("s", "nc")]⟩ "created" rfl

/-! ## Data-mode reconciler: merged value per record
(`ArgoAccessor.filter_data_mode`, xarray.py lines 154-283)

A point-form record carries its `index` coordinate, its `DATA_MODE`, and for
one physical quantity the plain value `<PARAM>` and the adjusted value
`<PARAM>_ADJUSTED` (`none` models NaN).  `ds_split_datamode` partitions the
records by data mode with `ds.where(DATA_MODE == ., drop=True)` (a filter on
the index dimension); `fill_adjusted_nan` overwrites NaN adjusted entries of
the delayed-mode part with the plain value; `new_arrays` then outer-merges
the plain variable of the R part with the (renamed) adjusted variable of the
A and D parts.  Since the three parts live on disjoint index sets, the merge
is a disjoint union keyed by `index`, embedded below as a first-found
lookup across the three parts. -/

inductive DataMode where
  | R : DataMode
  | A : DataMode
  | D : DataMode
deriving DecidableEq, Repr

structure MRec where
  idx : Nat
  data_mode : DataMode
  plain : Option Int
  adjusted : Option Int
deriving DecidableEq, Repr

/-- `argo_r = ds.where(ds['DATA_MODE'] == 'R', drop=True)` (line 172); the
dropped `_ADJUSTED*` variables are simply never read from this part. -/
def argo_r (ds : List MRec) : List MRec := ds.filter (fun r => r.data_mode = .R)

/-- `argo_a = ds.where(ds['DATA_MODE'] == 'A', drop=True)` (line 184). -/
def argo_a (ds : List MRec) : List MRec := ds.filter (fun r => r.data_mode = .A)

/-- `fill_adjusted_nan` (lines 196-203) in per-record form: wherever the
adjusted value is NaN it is overwritten with the plain value. -/
def fill_adjusted_nan (r : MRec) : MRec :=
  if r.adjusted = none then { r with adjusted := r.plain } else r

/-- `argo_d = ds.where(ds['DATA_MODE'] == 'D', drop=True)` (line 193)
followed by the `fill_adjusted_nan` pass of line 246. -/
def argo_d (ds : List MRec) : List MRec :=
  (ds.filter (fun r => r.data_mode = .D)).map fill_adjusted_nan

/-- The value of the merged `<PARAM>` variable at coordinate `i`, as produced
by `new_arrays` (lines 205-230): the union of the plain values of `argo_r`
and the adjusted values of `argo_a` and `argo_d`, keyed by `index`.
Returns `none` when `i` lies in none of the three parts. -/
def merged_value (ds : List MRec) (i : Nat) : Option (Option Int) :=
  match (argo_r ds).find? (fun r => r.idx == i) with
  | some r => some r.plain
  | none =>
    match (argo_a ds).find? (fun r => r.idx == i) with
    | some r => some r.adjusted
    | none => ((argo_d ds).find? (fun r => r.idx == i)).map (fun r => r.adjusted)

/-- In a list whose only elements with `r`'s index are `r` itself, the
first-found lookup by index returns `r`. -/
theorem find_idx_self (l : List MRec) (r : MRec) (hr : r ∈ l)
    (huniq : ∀ x ∈ l, x.idx = r.idx → x = r) :
    l.find? (fun x => x.idx == r.idx) = some r := by
  induction l with
  | nil => simp at hr
  | cons a t ih =>
    by_cases ha : a.idx = r.idx
    · have : a = r := huniq a (by simp) ha
      subst this
      simp [List.find?_cons, ha]
    · have hne : a ≠ r := fun h => ha (by rw [h])
      have hrt : r ∈ t := by
        rcases List.mem_cons.mp hr with h | h
        · exact absurd h.symm hne
        · exact h
      rw [List.find?_cons]
      have : (a.idx == r.idx) = false := by simp [ha]
      rw [this]
      exact ih hrt (fun x hx hxi => huniq x (by simp [hx]) hxi)

/-- **C2 (confirmed).**  For a point-form dataset with pairwise distinct
index coordinates, the reconciler's merged value at a record's index is:
the plain value when its `DATA_MODE` is 'R'; the adjusted value when it is
'A'; and when it is 'D', the adjusted value if defined, otherwise the plain
value. -/
theorem filter_data_mode_value (ds : List MRec) (r : MRec) (hr : r ∈ ds)
    (hnd : (ds.map (fun x => x.idx)).Nodup) :
    merged_value ds r.idx =
      some (match r.data_mode with
        | .R => r.plain
        | .A => r.adjusted
        | .D => if r.adjusted = none then r.plain else r.adjusted) := by
  have huniq : ∀ x ∈ ds, x.idx = r.idx → x = r := by
    intro x hx hxi
    exact List.inj_on_of_nodup_map hnd hx hr hxi
  cases hmode : r.data_mode with
  | R =>
    have hrR : r ∈ argo_r ds := by
      simp [argo_r, List.mem_filter, hr, hmode]
    have : (argo_r ds).find? (fun x => x.idx == r.idx) = some r :=
      find_idx_self _ r hrR
        (fun x hx => huniq x (List.mem_of_mem_filter hx))
    simp [merged_value, this]
  | A =>
    have hnotR : (argo_r ds).find? (fun x => x.idx == r.idx) = none := by
      rw [List.find?_eq_none]
      intro x hx hbeq
      have hxr : x = r := huniq x (List.mem_of_mem_filter hx) (by simpa using hbeq)
      have := List.of_mem_filter hx
      rw [hxr] at this
      simp [hmode] at this
    have hrA : r ∈ argo_a ds := by
      simp [argo_a, List.mem_filter, hr, hmode]
    have hfA : (argo_a ds).find? (fun x => x.idx == r.idx) = some r :=
      find_idx_self _ r hrA
        (fun x hx => huniq x (List.mem_of_mem_filter hx))
    simp [merged_value, hnotR, hfA]
  | D =>
    have hnotR : (argo_r ds).find? (fun x => x.idx == r.idx) = none := by
      rw [List.find?_eq_none]
      intro x hx hbeq
      have hxr : x = r := huniq x (List.mem_of_mem_filter hx) (by simpa using hbeq)
      have := List.of_mem_filter hx
      rw [hxr] at this
      simp [hmode] at this
    have hnotA : (argo_a ds).find? (fun x => x.idx == r.idx) = none := by
      rw [List.find?_eq_none]
      intro x hx hbeq
      have hxr : x = r := huniq x (List.mem_of_mem_filter hx) (by simpa using hbeq)
      have := List.of_mem_filter hx
      rw [hxr] at this
      simp [hmode] at this
    have hrD : r ∈ (ds.filter (fun x => x.data_mode = .D)) := by
      simp [List.mem_filter, hr, hmode]
    have hfD : (ds.filter (fun x => x.data_mode = .D)).find?
        (fun x => x.idx == r.idx) = some r :=
      find_idx_self _ r hrD
        (fun x hx => huniq x (List.mem_of_mem_filter hx))
    have hfDmap : (argo_d ds).find? (fun x => x.idx == r.idx) =
        some (fill_adjusted_nan r) := by
      rw [argo_d, List.find?_map]
      have hcomp : ((fun x : MRec => x.idx == r.idx) ∘ fill_adjusted_nan) =
          (fun x : MRec => x.idx == r.idx) := by
        funext x
        simp [fill_adjusted_nan]
        by_cases h : x.adjusted = none <;> simp [h]
      rw [hcomp, hfD]
      rfl
    by_cases hadj : r.adjusted = none
    · simp [merged_value, hnotR, hnotA, hfDmap, fill_adjusted_nan, hadj]
    · simp [merged_value, hnotR, hnotA, hfDmap, fill_adjusted_nan, hadj]

/-- Witness for `filter_data_mode_value`, on the spec's three-record scenario
(modes R, A, D with PRES `[10, NaN, 30]` and PRES_ADJUSTED `[NaN, 21, NaN]`):
the delayed-mode record's merged value falls back to the plain value 30. -/
theorem filter_data_mode_value_witness :
    merged_value
        [⟨0, .R, some 10, none⟩, ⟨1, .A, none, some 21⟩, ⟨2, .D, some 30, none⟩]
        (MRec.idx ⟨2, .D, some 30, none⟩) =
      some (some 30) :=
  filter_data_mode_value
    [⟨0, .R, some 10, none⟩, ⟨1, .A, none, some 21⟩, ⟨2, .D, some 30, none⟩]
    ⟨2, .D, some 30, none⟩ (by decide) (by decide)

/-! ## Values and element types

`AVal` models one scalar cell of a variable; `DType` models the numpy dtype
of a variable (`O` object, `U w` fixed-width text, `I` integer, `F` float,
`M` datetime64).  NaN and NaT are the `none` values of the float and
datetime constructors. -/

inductive AVal where
  | vstr : String → AVal
  | vint : Int → AVal
  | vfloat : Option Int → AVal
  | vtime : Option Int → AVal
deriving DecidableEq, Repr

inductive DType where
  | O : DType
  | U : Nat → DType
  | I : DType
  | F : DType
  | M : DType
deriving DecidableEq, Repr

/-- `point2profile.fillvalue` (xarray.py lines 340-351): dtype kind 'U' gets
a space character, kind 'i' the sentinel 99999, kind 'M' `NaT`, and
everything else (floats, objects) `NaN`. -/
def fillvalue : DType → AVal
  | .U _ => .vstr " "
  | .I => .vint 99999
  | .M => .vtime none
  | _ => .vfloat none

/-! ## Sorting (models `np.unique`'s sorted output and `Dataset.sortby`)

`insertionSortBy` is a comparison sort by an integer key; only the fact that
its output is a permutation of its input matters to the claims below, so it
stands in for both the ascending order of `np.unique` and the
`sortby('TIME')` calls (whose key is passed in as a parameter). -/

def insertBy {β : Type} (key : β → Int) (x : β) : List β → List β
  | [] => [x]
  | y :: ys => if key x ≤ key y then x :: y :: ys else y :: insertBy key x ys

def insertionSortBy {β : Type} (key : β → Int) : List β → List β
  | [] => []
  | x :: xs => insertBy key x (insertionSortBy key xs)

theorem insertBy_perm {β : Type} (key : β → Int) (x : β) (l : List β) :
    List.Perm (insertBy key x l) (x :: l) := by
  induction l with
  | nil => rfl
  | cons y ys ih =>
    rw [insertBy]
    by_cases h : key x ≤ key y
    · rw [if_pos h]
    · rw [if_neg h]
      exact (ih.cons y).trans (List.Perm.swap x y ys)

theorem insertionSortBy_perm {β : Type} (key : β → Int) (l : List β) :
    List.Perm (insertionSortBy key l) l := by
  induction l with
  | nil => rfl
  | cons x xs ih => exact (insertBy_perm key x _).trans (ih.cons x)

/-! ## Grouping by profile identifier
(`this.groupby(dummy_argo_uid)`, xarray.py lines 353-384)

xarray's `groupby` enumerates the groups in sorted key order (`np.unique`)
and keeps the records of each group in arrival order; `grpBy` is one group,
`uidsBy` the sorted list of distinct keys. -/

/-- The sorted distinct keys: `np.unique(dummy_argo_uid)`. -/
def uidsBy {β : Type} (k : β → Int) (l : List β) : List Int :=
  insertionSortBy (fun u => u) ((l.map k).dedup)

/-- The records of the group with key `u`, in arrival order. -/
def grpBy {β : Type} (k : β → Int) (l : List β) (u : Int) : List β :=
  l.filter (fun r => k r == u)

/-- `N_PROF = len(np.unique(dummy_argo_uid))` (line 360). -/
def nprofBy {β : Type} (k : β → Int) (l : List β) : Nat := (uidsBy k l).length

/-- `N_LEVELS` = the maximum group size (lines 363-366: the grouped sum of a
ones array, maximised). -/
def nlevelsBy {β : Type} (k : β → Int) (l : List β) : Nat :=
  ((uidsBy k l).map (fun u => (grpBy k l u).length)).foldr max 0

theorem uidsBy_nodup {β : Type} (k : β → Int) (l : List β) : (uidsBy k l).Nodup := by
  unfold uidsBy
  exact ((insertionSortBy_perm (fun u => u) ((l.map k).dedup)).symm.nodup)
    (List.nodup_dedup _)

theorem mem_uidsBy {β : Type} (k : β → Int) (l : List β) (u : Int) :
    u ∈ uidsBy k l ↔ u ∈ l.map k := by
  unfold uidsBy
  exact ((insertionSortBy_perm (fun u => u) ((l.map k).dedup)).mem_iff).trans
    List.mem_dedup

/-- Partitioning a list by a `Nodup` list of keys covering all of its
records recovers the list up to permutation. -/
theorem flatten_grp_perm {β : Type} (k : β → Int) :
    ∀ (keys : List Int) (l : List β), keys.Nodup → (∀ r ∈ l, k r ∈ keys) →
      List.Perm ((keys.map (fun u => l.filter (fun r => k r == u))).flatten) l := by
  intro keys
  induction keys with
  | nil =>
    intro l _ hcov
    cases l with
    | nil => simp
    | cons a t => exact absurd (hcov a (by simp)) (by simp)
  | cons u ks ih =>
    intro l hnd hcov
    simp only [List.map_cons, List.flatten_cons]
    have hu_notin : u ∉ ks := (List.nodup_cons.mp hnd).1
    have hmapeq : ks.map (fun v => l.filter (fun r => k r == v)) =
        ks.map (fun v => (l.filter (fun r => !(k r == u))).filter (fun r => k r == v)) := by
      apply List.map_congr_left
      intro v hv
      rw [List.filter_filter]
      apply List.filter_congr
      intro a _
      by_cases hav : k a = v
      · have hvu : v ≠ u := fun h => hu_notin (h ▸ hv)
        have hau : k a ≠ u := by rw [hav]; exact hvu
        simp [hav, hau, hvu]
      · simp [hav]
    rw [hmapeq]
    have hperm : List.Perm
        ((ks.map (fun v => (l.filter (fun r => !(k r == u))).filter
          (fun r => k r == v))).flatten)
        (l.filter (fun r => !(k r == u))) := by
      apply ih
      · exact (List.nodup_cons.mp hnd).2
      · intro r hr
        have hr_l : r ∈ l := List.mem_of_mem_filter hr
        have hne : (k r == u) = false := by
          have := List.of_mem_filter hr
          simpa using this
        have := hcov r hr_l
        rcases List.mem_cons.mp this with h | h
        · rw [h] at hne
          simp at hne
        · exact h
    exact (hperm.append_left _).trans (List.filter_append_perm _ l)

/-- Specialisation: the flattened sorted groups of `l` are a permutation
of `l`. -/
theorem flatten_uids_grp_perm {β : Type} (k : β → Int) (l : List β) :
    List.Perm (((uidsBy k l).map (fun u => grpBy k l u)).flatten) l := by
  apply flatten_grp_perm k (uidsBy k l) l (uidsBy_nodup k l)
  intro r hr
  exact (mem_uidsBy k l (k r)).mpr (List.mem_map_of_mem k hr)

theorem mem_le_foldr_max (L : List Nat) (x : Nat) (h : x ∈ L) :
    x ≤ L.foldr max 0 := by
  induction L with
  | nil => simp at h
  | cons a t ih =>
    rcases List.mem_cons.mp h with rfl | h2
    · exact le_max_left _ _
    · exact le_trans (ih h2) (le_max_right _ _)

/-- Every group is no larger than `N_LEVELS`. -/
theorem grp_length_le_nlevels {β : Type} (k : β → Int) (l : List β) (u : Int)
    (hu : u ∈ uidsBy k l) : (grpBy k l u).length ≤ nlevelsBy k l := by
  have hmem : (grpBy k l u).length ∈
      (uidsBy k l).map (fun v => (grpBy k l v).length) :=
    List.mem_map_of_mem _ hu
  unfold nlevelsBy
  exact mem_le_foldr_max _ _ hmem

/-- `N_PROF * N_LEVELS` bounds the total record count (the `assert` of
xarray.py line 367). -/
theorem length_le_nprof_mul_nlevels {β : Type} (k : β → Int) (l : List β) :
    l.length ≤ nprofBy k l * nlevelsBy k l := by
  have hlen : l.length =
      (((uidsBy k l).map (fun u => grpBy k l u)).flatten).length :=
    ((flatten_uids_grp_perm k l).length_eq).symm
  rw [hlen, List.length_flatten, List.map_map]
  have hbound : ∀ x ∈ (uidsBy k l).map (List.length ∘ fun u => grpBy k l u),
      x ≤ nlevelsBy k l := by
    intro x hx
    rcases List.mem_map.mp hx with ⟨u, hu, hxu⟩
    rw [← hxu]
    exact grp_length_le_nlevels k l u hu
  have hsum : ∀ (L : List Nat) (m : Nat), (∀ x ∈ L, x ≤ m) → L.sum ≤ L.length * m := by
    intro L m hL
    induction L with
    | nil => simp
    | cons a t ih =>
      simp only [List.sum_cons, List.length_cons]
      have h1 := hL a (by simp)
      have h2 := ih (fun x hx => hL x (by simp [hx]))
      nlinarith
  calc ((uidsBy k l).map (List.length ∘ fun u => grpBy k l u)).sum
      ≤ ((uidsBy k l).map (List.length ∘ fun u => grpBy k l u)).length * nlevelsBy k l :=
        hsum _ _ hbound
    _ = nprofBy k l * nlevelsBy k l := by rw [List.length_map]; rfl

/-! ## Point → Profile per-variable reshape
(`ArgoAccessor.point2profile`, xarray.py lines 332-430)

A point-form variable is a list of `(uid, value)` records (`uid` the profile
identifier of the record, the pairing of line 354).  A level-varying
(`list_2d`) variable is allocated as an `N_PROF × N_LEVELS` array of fill
values (line 389) and then, group by group in sorted-uid order, the loop of
lines 402-413 overwrites the prefix `y[i_prof, 0:len(x)] = x` of the fill
row; `writeFront row new` is that prefix assignment.  A profile-scalar
(`list_1d`) variable becomes one dimensional, row `i_prof` receiving
`np.unique(x)[0]` (line 417). -/

/-- The values of the group of `u`, in arrival order (`prof[vname].values`). -/
def groupVals {α : Type} (ds : List (Int × α)) (u : Int) : List α :=
  (grpBy Prod.fst ds u).map Prod.snd

/-- `y[i_prof, 0:len(new)] = new` on a row `row`. -/
def writeFront {α : Type} (row new : List α) : List α :=
  new ++ row.drop new.length

/-- The reshaped 2-D variable: for each uid in sorted order, the fill-valued
row of length `N_LEVELS` with the group's values written at the front. -/
def point2profile_2d {α : Type} (ds : List (Int × α)) (fill : α) : List (List α) :=
  (uidsBy Prod.fst ds).map (fun u =>
    writeFront (List.replicate (nlevelsBy Prod.fst ds) fill) (groupVals ds u))

/-- The reshaped 1-D (profile-scalar) variable: row `i_prof` holds
`np.unique(x)[0]`, the single distinct value of the group (modelled with
`dedup`; with one distinct value per group, `np.unique`'s sorting is
immaterial). -/
def point2profile_1d {α : Type} [DecidableEq α] (ds : List (Int × α)) (dflt : α) :
    List α :=
  (uidsBy Prod.fst ds).map (fun u => ((groupVals ds u).dedup).headD dflt)

/-- The classification statistic of lines 376-384: the total over profiles of
the number of distinct values per group; a variable is routed to the 1-D
(`list_1d`) branch iff this total equals `N_PROF`. -/
def scalar_profile_count {α : Type} [DecidableEq α] (ds : List (Int × α)) : Nat :=
  ((uidsBy Prod.fst ds).map (fun u => (groupVals ds u).dedup.length)).sum

theorem groupVals_length {α : Type} (ds : List (Int × α)) (u : Int) :
    (groupVals ds u).length = (grpBy Prod.fst ds u).length :=
  List.length_map _ _

theorem mem_groupVals {α : Type} (ds : List (Int × α)) (u : Int) (x : α)
    (h : (u, x) ∈ ds) : x ∈ groupVals ds u := by
  unfold groupVals grpBy
  apply List.mem_map.mpr
  refine ⟨(u, x), ?_, rfl⟩
  apply List.mem_filter.mpr
  exact ⟨h, by simp⟩

/-- In a list of positive naturals summing to its length, every entry is 1. -/
theorem all_one_of_sum_eq_length (L : List Nat) (hpos : ∀ x ∈ L, 1 ≤ x)
    (hsum : L.sum = L.length) : ∀ x ∈ L, x = 1 := by
  induction L with
  | nil => simp
  | cons a t ih =>
    have hlen : ∀ (M : List Nat), (∀ x ∈ M, 1 ≤ x) → M.length ≤ M.sum := by
      intro M hM
      induction M with
      | nil => simp
      | cons b s ihs =>
        simp only [List.length_cons, List.sum_cons]
        have h1 := hM b (by simp)
        have h2 := ihs (fun x hx => hM x (by simp [hx]))
        omega
    have ha : 1 ≤ a := hpos a (by simp)
    have ht : t.length ≤ t.sum := hlen t (fun x hx => hpos x (by simp [hx]))
    simp only [List.sum_cons, List.length_cons] at hsum
    have ha1 : a = 1 := by omega
    have htsum : t.sum = t.length := by omega
    intro x hx
    rcases List.mem_cons.mp hx with rfl | hx2
    · exact ha1
    · exact ih (fun y hy => hpos y (by simp [hy])) htsum x hx2

/-- **C3 (confirmed).**  For every nonempty point-form variable:
(1) `N_PROF * N_LEVELS` is at least the record count; (2) every group is no
larger than `N_LEVELS`, and the reshaped 2-D variable's row for each group
is exactly the group's values in arrival order followed by fill values up to
`N_LEVELS`; (3) the declared fill values are the space character for text,
99999 for integers, not-a-time for timestamps, and NaN for floating point;
(4) a variable classified profile-scalar (distinct-value total = `N_PROF`)
becomes 1-D, its entry for each group being the group's single distinct
value. -/
theorem point2profile_layout {α : Type} [DecidableEq α]
    (ds : List (Int × α)) (fill dflt : α) (hne : ds ≠ []) :
    ds.length ≤ nprofBy Prod.fst ds * nlevelsBy Prod.fst ds ∧
    ((∀ u ∈ uidsBy Prod.fst ds,
        (groupVals ds u).length ≤ nlevelsBy Prod.fst ds) ∧
      point2profile_2d ds fill =
        (uidsBy Prod.fst ds).map (fun u =>
          groupVals ds u ++
            List.replicate (nlevelsBy Prod.fst ds - (groupVals ds u).length) fill)) ∧
    ((∀ w, fillvalue (.U w) = .vstr " ") ∧ fillvalue .I = .vint 99999 ∧
      fillvalue .M = .vtime none ∧ fillvalue .F = .vfloat none) ∧
    (scalar_profile_count ds = nprofBy Prod.fst ds →
      ∀ i x, (hi : i < (uidsBy Prod.fst ds).length) →
        ((uidsBy Prod.fst ds).get ⟨i, hi⟩, x) ∈ ds →
        (point2profile_1d ds dflt)[i]? = some x) := by
  refine ⟨length_le_nprof_mul_nlevels Prod.fst ds, ⟨?_, ?_⟩, ?_, ?_⟩
  · intro u hu
    rw [groupVals_length]
    exact grp_length_le_nlevels Prod.fst ds u hu
  · unfold point2profile_2d writeFront
    apply List.map_congr_left
    intro u _
    rw [List.drop_replicate]
  · exact ⟨fun w => rfl, rfl, rfl, rfl⟩
  · intro hsc i x hi hmem
    set u := (uidsBy Prod.fst ds).get ⟨i, hi⟩ with hu_def
    have hu_mem : u ∈ uidsBy Prod.fst ds := by
      rw [hu_def]
      exact List.get_mem _ i hi
    have hx_grp : x ∈ groupVals ds u := mem_groupVals ds u x hmem
    have hpos : ∀ y ∈ (uidsBy Prod.fst ds).map
        (fun v => (groupVals ds v).dedup.length), 1 ≤ y := by
      intro y hy
      rcases List.mem_map.mp hy with ⟨v, hv, hyv⟩
      have hv2 : v ∈ ds.map Prod.fst := (mem_uidsBy Prod.fst ds v).mp hv
      rcases List.mem_map.mp hv2 with ⟨r, hr, hrv⟩
      rcases r with ⟨rv, rx⟩
      have hrv2 : rv = v := hrv
      subst hrv2
      have hrx : rx ∈ groupVals ds rv := mem_groupVals ds rv rx hr
      have hnil : (groupVals ds rv).dedup ≠ [] := by
        intro hdd
        have hmem2 := List.mem_dedup.mpr hrx
        rw [hdd] at hmem2
        simp at hmem2
      rw [← hyv]
      have := List.length_pos.mpr hnil
      omega
    have hall1 : ∀ y ∈ (uidsBy Prod.fst ds).map
        (fun v => (groupVals ds v).dedup.length), y = 1 := by
      apply all_one_of_sum_eq_length _ hpos
      rw [List.length_map]
      exact hsc
    have h1 : (groupVals ds u).dedup.length = 1 :=
      hall1 _ (List.mem_map_of_mem _ hu_mem)
    obtain ⟨y, hy⟩ : ∃ y, (groupVals ds u).dedup = [y] := by
      cases hdd : (groupVals ds u).dedup with
      | nil => rw [hdd] at h1; simp at h1
      | cons y t =>
        rw [hdd] at h1
        simp at h1
        exact ⟨y, by rw [h1]⟩
    have hxy : x = y := by
      have hxd : x ∈ (groupVals ds u).dedup := List.mem_dedup.mpr hx_grp
      rw [hy] at hxd
      simpa using hxd
    have hgu : (uidsBy Prod.fst ds)[i] = u := by
      rw [hu_def, List.get_eq_getElem]
    unfold point2profile_1d
    rw [List.getElem?_map, List.getElem?_eq_getElem hi]
    simp [hgu, hy, hxy]

/-- Witness for `point2profile_layout` on the concrete three-record variable
`[(5, 10), (5, 11), (7, 20)]` (two profiles, the densest of size 2). -/
theorem point2profile_layout_witness :
    ([((5 : Int), (10 : Int)), (5, 11), (7, 20)].length ≤
        nprofBy Prod.fst [((5 : Int), (10 : Int)), (5, 11), (7, 20)] *
          nlevelsBy Prod.fst [((5 : Int), (10 : Int)), (5, 11), (7, 20)]) ∧
    ((∀ u ∈ uidsBy Prod.fst [((5 : Int), (10 : Int)), (5, 11), (7, 20)],
        (groupVals [((5 : Int), (10 : Int)), (5, 11), (7, 20)] u).length ≤
          nlevelsBy Prod.fst [((5 : Int), (10 : Int)), (5, 11), (7, 20)]) ∧
      point2profile_2d [((5 : Int), (10 : Int)), (5, 11), (7, 20)] 99999 =
        (uidsBy Prod.fst [((5 : Int), (10 : Int)), (5, 11), (7, 20)]).map (fun u =>
          groupVals [((5 : Int), (10 : Int)), (5, 11), (7, 20)] u ++
            List.replicate
              (nlevelsBy Prod.fst [((5 : Int), (10 : Int)), (5, 11), (7, 20)] -
                (groupVals [((5 : Int), (10 : Int)), (5, 11), (7, 20)] u).length)
              99999)) ∧
    ((∀ w, fillvalue (.U w) = .vstr " ") ∧ fillvalue .I = .vint 99999 ∧
      fillvalue .M = .vtime none ∧ fillvalue .F = .vfloat none) ∧
    (scalar_profile_count [((5 : Int), (10 : Int)), (5, 11), (7, 20)] =
        nprofBy Prod.fst [((5 : Int), (10 : Int)), (5, 11), (7, 20)] →
      ∀ i x, (hi : i < (uidsBy Prod.fst [((5 : Int), (10 : Int)), (5, 11), (7, 20)]).length) →
        ((uidsBy Prod.fst [((5 : Int), (10 : Int)), (5, 11), (7, 20)]).get ⟨i, hi⟩, x) ∈
            [((5 : Int), (10 : Int)), (5, 11), (7, 20)] →
        (point2profile_1d [((5 : Int), (10 : Int)), (5, 11), (7, 20)] 0)[i]? = some x) :=
  point2profile_layout [((5 : Int), (10 : Int)), (5, 11), (7, 20)] 99999 0 (by decide)

/-! ## Point → Profile → Point round trip
(`point2profile` lines 332-430 and `profile2point` lines 432-472)

A point-form record of the claim's tuple shape: the codec key fields
(platform, cycle, direction — grouped by `encode_uid` of them, exactly the
`dummy_argo_uid` pairing of line 354), the primary pressure value (`none`
models NaN) and the remaining level-varying variable values bundled into a
`payload`.  The claim concerns level-varying variables, which all travel
through the 2-D path, so the whole record tuple is reshaped as one 2-D cell.

`point2profile` fills the padded rows group by group and finally sorts the
profiles with `sortby('TIME')`; `profile2point` stacks the `(N_PROF,
N_LEVELS)` grid into one flat index (row-major), drops every record whose
PRES is NaN (`ds.where(~np.isnan(ds['PRES']), drop=1)`, line 464) and sorts
by TIME.  Both sorts are comparison sorts by a key; the key functions are
parameters, so the theorem holds for the TIME keys in particular. -/

structure PRec (α : Type) where
  platform : Nat
  cycle : Nat
  direction : Direction
  pres : Option Int
  payload : α
deriving DecidableEq, Repr

/-- `dummy_argo_uid` of the record: the codec applied to its key fields. -/
def keyR {α : Type} (r : PRec α) : Int := encode_uid r.platform r.cycle r.direction

/-- `point2profile` on the record tuple of a level-varying variable bundle:
fill-valued `N_PROF × N_LEVELS` rows, each group written at the front of its
row in arrival order, profiles then sorted (`sortby('TIME')`). -/
def point2profile_rows {α : Type} (ds : List (PRec α)) (pad : PRec α)
    (rowKey : List (PRec α) → Int) : List (List (PRec α)) :=
  insertionSortBy rowKey
    ((uidsBy keyR ds).map (fun u =>
      writeFront (List.replicate (nlevelsBy keyR ds) pad) (grpBy keyR ds u)))

/-- `profile2point`: stack the grid row-major into the flat `index`
dimension, drop the records with undefined PRES, sort by TIME. -/
def profile2point_recs {α : Type} (k2 : PRec α → Int)
    (mat : List (List (PRec α))) : List (PRec α) :=
  insertionSortBy k2 ((mat.flatten).filter (fun r => r.pres.isSome))

theorem filter_flatten {β : Type} (p : β → Bool) (L : List (List β)) :
    L.flatten.filter p = (L.map (fun x => x.filter p)).flatten := by
  induction L with
  | nil => rfl
  | cons a t ih => simp [List.filter_append, ih]

theorem filter_replicate_false {β : Type} (p : β → Bool) (pad : β)
    (h : p pad = false) (n : Nat) : (List.replicate n pad).filter p = [] := by
  induction n with
  | zero => rfl
  | succ m ih => simp [List.replicate_succ, List.filter_cons, h, ih]

theorem filter_grpBy_comm {β : Type} (k : β → Int) (p : β → Bool) (l : List β)
    (u : Int) : (grpBy k l u).filter p = grpBy k (l.filter p) u := by
  unfold grpBy
  rw [List.filter_filter, List.filter_filter]
  apply List.filter_congr
  intro a _
  exact Bool.and_comm _ _

/-- **C4 (confirmed).**  For every nonempty point-form dataset, the
composition Point→Profile→Point preserves the multiset of record tuples
(platform, cycle, direction, PRES, level-varying payload) of every genuine
observation — a record whose PRES value is defined — and this holds for
every choice of the two sort keys and independently of the ordering of the
input records.  Profile padding (fill records, whose PRES is NaN) is
discarded. -/
theorem point2profile_profile2point_multiset {α : Type} (ds : List (PRec α))
    (pad : PRec α) (rowKey : List (PRec α) → Int) (k2 : PRec α → Int)
    (hpad : pad.pres = none) (hne : ds ≠ []) :
    List.Perm (profile2point_recs k2 (point2profile_rows ds pad rowKey))
        (ds.filter (fun r => r.pres.isSome)) ∧
      ∀ ds' : List (PRec α), List.Perm ds' ds →
        List.Perm (profile2point_recs k2 (point2profile_rows ds' pad rowKey))
          (profile2point_recs k2 (point2profile_rows ds pad rowKey)) := by
  have hpadp : (fun r : PRec α => r.pres.isSome) pad = false := by
    simp [hpad]
  have hmain : ∀ (l : List (PRec α)),
      List.Perm (profile2point_recs k2 (point2profile_rows l pad rowKey))
        (l.filter (fun r => r.pres.isSome)) := by
    intro l
    unfold profile2point_recs point2profile_rows
    refine (insertionSortBy_perm k2 _).trans ?_
    have hrows := insertionSortBy_perm rowKey
      ((uidsBy keyR l).map (fun u =>
        writeFront (List.replicate (nlevelsBy keyR l) pad) (grpBy keyR l u)))
    refine ((hrows.flatten).filter _).trans ?_
    rw [filter_flatten]
    have hmaprw : (((uidsBy keyR l).map (fun u =>
          writeFront (List.replicate (nlevelsBy keyR l) pad)
            (grpBy keyR l u))).map
          (fun x => x.filter (fun r => r.pres.isSome))) =
        (uidsBy keyR l).map (fun u =>
          (l.filter (fun r => r.pres.isSome)).filter (fun r => keyR r == u)) := by
      rw [List.map_map]
      apply List.map_congr_left
      intro u _
      show (writeFront (List.replicate (nlevelsBy keyR l) pad)
          (grpBy keyR l u)).filter (fun r => r.pres.isSome) = _
      unfold writeFront
      rw [List.filter_append, List.drop_replicate,
        filter_replicate_false (fun r : PRec α => r.pres.isSome) pad hpadp
          (nlevelsBy keyR l - (grpBy keyR l u).length),
        List.append_nil, filter_grpBy_comm]
      rfl
    rw [hmaprw]
    apply flatten_grp_perm keyR (uidsBy keyR l) (l.filter (fun r => r.pres.isSome))
      (uidsBy_nodup keyR l)
    intro r hr
    exact (mem_uidsBy keyR l (keyR r)).mpr
      (List.mem_map_of_mem keyR (List.mem_of_mem_filter hr))
  refine ⟨hmain ds, ?_⟩
  intro ds' hperm
  exact (hmain ds').trans ((hperm.filter _).trans (hmain ds).symm)

/-- Witness for `point2profile_profile2point_multiset` on a concrete
three-record dataset (two profiles; the middle record's PRES is NaN, so only
two genuine observations survive the round trip). -/
theorem point2profile_profile2point_multiset_witness :
    List.Perm
        (profile2point_recs (fun r => keyR r)
          (point2profile_rows
            [(⟨42, 1, .A, some 5, 100⟩ : PRec Int), ⟨42, 1, .A, none, 101⟩,
              ⟨7, 2, .D, some 9, 102⟩]
            ⟨0, 0, .A, none, 0⟩ (fun _ => 0)))
        ([(⟨42, 1, .A, some 5, 100⟩ : PRec Int), ⟨42, 1, .A, none, 101⟩,
            ⟨7, 2, .D, some 9, 102⟩].filter (fun r => r.pres.isSome)) ∧
      ∀ ds' : List (PRec Int),
        List.Perm ds'
          [(⟨42, 1, .A, some 5, 100⟩ : PRec Int), ⟨42, 1, .A, none, 101⟩,
            ⟨7, 2, .D, some 9, 102⟩] →
        List.Perm
          (profile2point_recs (fun r => keyR r)
            (point2profile_rows ds' ⟨0, 0, .A, none, 0⟩ (fun _ => 0)))
          (profile2point_recs (fun r => keyR r)
            (point2profile_rows
              [(⟨42, 1, .A, some 5, 100⟩ : PRec Int), ⟨42, 1, .A, none, 101⟩,
                ⟨7, 2, .D, some 9, 102⟩]
              ⟨0, 0, .A, none, 0⟩ (fun _ => 0))) :=
  point2profile_profile2point_multiset
    [⟨42, 1, .A, some 5, 100⟩, ⟨42, 1, .A, none, 101⟩, ⟨7, 2, .D, some 9, 102⟩]
    ⟨0, 0, .A, none, 0⟩ (fun _ => 0) (fun r => keyR r) (by decide) (by decide)

/-- **C5 (confirmed).**  For every profile-form input, the point-form output
of `profile2point` contains no record whose primary pressure value is
undefined: the flattened records with NaN PRES (padding artifacts) are all
dropped before the result is returned. -/
theorem profile2point_pres_defined {α : Type} (mat : List (List (PRec α)))
    (k2 : PRec α → Int) :
    (profile2point_recs k2 mat).all (fun r => r.pres.isSome) = true := by
  rw [List.all_eq_true]
  intro r hr
  have hr2 : r ∈ (mat.flatten).filter (fun x => x.pres.isSome) :=
    ((insertionSortBy_perm k2 _).mem_iff).mp hr
  exact (List.mem_filter.mp hr2).2

/-! ## Type normalizer (`ArgoAccessor.cast_types`, xarray.py lines 58-152)

A variable is its name, its numpy dtype, its `conventions` attribute and its
list of cell values.  `astype` casts are modelled on the value level:
* cast-to-str renders every cell as its string form and sets the dtype to
  the fixed text width `U (maximum rendered length)` (numpy picks the
  maximal length);
* cast-to-int parses every cell (digits with an optional sign for strings —
  numpy's `int()` — identity for ints, truncation for floats with NaN
  mapping to the int64 garbage sentinel, epoch value for datetimes) and
  fails as a whole, like `ndarray.astype`, as soon as one cell fails;
* the packed date-time parse (`pd.to_datetime(..., format='%Y%m%d%H%M%S')`)
  accepts `'nan'` and the empty string as NaT and otherwise requires 14
  digits, raising (not recovering) on anything else.  Calendar range checks
  of pandas are not modelled; none of the claims below depends on them.
`cast_this` (lines 66-74) is the recover-on-failure wrapper: a failed cast
prints a diagnostic and returns the variable unchanged.  The `to_datetime`
calls of lines 105, 110 and 119 are *not* under that wrapper, so their
failures propagate out of `cast_types`; this is modelled with `Except`.
The per-variable `casted` attribute bookkeeping (lines 92 and 149-150)
touches no value and no dtype and is not modelled. -/

/-- One cell rendered as a Python string (`str(x)`). -/
def valToStr : AVal → String
  | .vstr s => s
  | .vint n => toString n
  | .vfloat (some x) => toString x ++ ".0"
  | .vfloat none => "nan"
  | .vtime (some t) => toString t
  | .vtime none => "NaT"

/-- `np.array(np.nan).astype(int)` yields the int64 garbage sentinel rather
than raising. -/
def intGarbage : Int := -(2 ^ 63)

def digitsVal (l : List Char) : Option Nat :=
  if l = [] then none
  else if l.all (fun c => c.isDigit) then
    some (l.foldl (fun a c => a * 10 + (c.toNat - 48)) 0)
  else none

/-- Integer parsing of a string cell (Python `int(...)`: optional sign then
digits). -/
def strToInt (s : String) : Option Int :=
  match s.data with
  | '-' :: rest => (digitsVal rest).map (fun n => -(n : Int))
  | l => (digitsVal l).map (fun n => (n : Int))

/-- `astype(int)` on one cell. -/
def parseIntVal : AVal → Option Int
  | .vstr s => strToInt s
  | .vint n => some n
  | .vfloat (some x) => some x
  | .vfloat none => some intGarbage
  | .vtime (some t) => some t
  | .vtime none => some intGarbage

def mapOption {β γ : Type} (f : β → Option γ) : List β → Option (List γ)
  | [] => some []
  | x :: xs =>
    match f x, mapOption f xs with
    | some y, some ys => some (y :: ys)
    | _, _ => none

structure AVar where
  name : String
  dtype : DType
  conventions : Option String
  vals : List AVal
deriving DecidableEq, Repr

/-- Maximal rendered width of the cells (numpy's choice of `U` width). -/
def maxStrWidth (l : List AVal) : Nat :=
  (l.map (fun x => (valToStr x).length)).foldr max 0

/-- `astype(str)`: total. -/
def astype_str (v : AVar) : AVar :=
  { v with dtype := .U (maxStrWidth v.vals),
           vals := v.vals.map (fun x => .vstr (valToStr x)) }

/-- `astype(int)`: all cells or nothing. -/
def astype_int (v : AVar) : Option AVar :=
  (mapOption parseIntVal v.vals).map
    (fun ns => { v with dtype := .I, vals := ns.map AVal.vint })

/-- `cast_this` (lines 66-74): on failure print a diagnostic and return the
variable unchanged. -/
def cast_this (v : AVar) (attempt : Option AVar) : AVar := attempt.getD v

/-- `list_str` (lines 76-86). -/
def list_str : List String :=
  ["PLATFORM_NUMBER", "DATA_MODE", "DIRECTION", "DATA_CENTRE", "DATA_TYPE",
   "FORMAT_VERSION", "HANDBOOK_VERSION", "PROJECT_NAME", "PI_NAME",
   "STATION_PARAMETERS", "DATA_CENTER", "DC_REFERENCE", "DATA_STATE_INDICATOR",
   "PLATFORM_TYPE", "FIRMWARE_VERSION", "POSITIONING_SYSTEM", "PROFILE_PRES_QC",
   "PROFILE_PSAL_QC", "PROFILE_TEMP_QC", "PARAMETER", "SCIENTIFIC_CALIB_EQUATION",
   "SCIENTIFIC_CALIB_COEFFICIENT", "SCIENTIFIC_CALIB_COMMENT",
   "HISTORY_INSTITUTION", "HISTORY_STEP", "HISTORY_SOFTWARE",
   "HISTORY_SOFTWARE_RELEASE", "HISTORY_REFERENCE", "HISTORY_ACTION",
   "HISTORY_PARAMETER", "VERTICAL_SAMPLING_SCHEME", "FLOAT_SERIAL_NO"]

/-- `list_int` (line 87; the source repeats WMO_INST_TYPE). -/
def list_int : List String :=
  ["PLATFORM_NUMBER", "WMO_INST_TYPE", "WMO_INST_TYPE", "CYCLE_NUMBER",
   "CONFIG_MISSION_NUMBER"]

/-- `list_datetime` (lines 88-89). -/
def list_datetime : List String :=
  ["REFERENCE_DATE_TIME", "DATE_CREATION", "DATE_UPDATE", "JULD",
   "JULD_LOCATION", "SCIENTIFIC_CALIB_DATE", "HISTORY_DATE"]

def listStarts : List Char → List Char → Bool
  | _, [] => true
  | [], _ :: _ => false
  | a :: as, b :: bs => a == b && listStarts as bs

def listHasSub : List Char → List Char → Bool
  | [], sub => sub.isEmpty
  | a :: as, sub => listStarts (a :: as) sub || listHasSub as sub

/-- Python's substring test `sub in s`. -/
def strContains (s sub : String) : Bool := listHasSub s.data sub.data

/-- The guard of the QC branch (line 123): `"QC" in v and "PROFILE" not in v`. -/
def qc_in_name (n : String) : Bool :=
  strContains n "QC" && !(strContains n "PROFILE")

/-- `pd.to_datetime(s, format='%Y%m%d%H%M%S')`: `'nan'` and the empty string
give NaT; otherwise exactly 14 digits are required, anything else raises
(returns `none` at the outer level). -/
def toDatetimeFmt (s : String) : Option (Option Int) :=
  if s = "nan" ∨ s = "" then some none
  else if s.length = 14 then
    match digitsVal s.data with
    | some k => some (some (k : Int))
    | none => none
  else none

/-- The `U14` truncation and blank-to-`'nan'` replacement of lines 103-104. -/
def prepU14 (s : String) : String :=
  let t := String.mk (s.data.take 14)
  if t = "              " then "nan" else t

/-- Lines 93-94: object variables of `list_str` are cast to str. -/
def step_str (v : AVar) : AVar :=
  if v.name ∈ list_str ∧ v.dtype = .O then cast_this v (some (astype_str v)) else v

/-- Lines 96-97: variables of `list_int` are cast to int (recovering wrapper). -/
def step_int (v : AVar) : AVar :=
  if v.name ∈ list_int then cast_this v (astype_int v) else v

/-- Lines 99-121: the date-time branch; the `to_datetime` parses are outside
`cast_this`, so a parse failure raises out of the whole pass. -/
def step_datetime (v : AVar) : Except String AVar :=
  if v.name ∈ list_datetime ∧ v.dtype = .O then
    if v.conventions = some "YYYYMMDDHHMISS" then
      if v.vals ≠ [] then
        match mapOption (fun x => toDatetimeFmt (prepU14 (valToStr x))) v.vals with
        | some ts => .ok { v with dtype := .M, vals := ts.map AVal.vtime }
        | none => .error "to_datetime failed on a packed date string"
      else .ok { v with dtype := .M }
    else if v.name = "SCIENTIFIC_CALIB_DATE" then
      match mapOption (fun x => toDatetimeFmt (valToStr x)) (astype_str v).vals with
      | some ts => .ok { v with dtype := .M, vals := ts.map AVal.vtime }
      | none => .error "to_datetime failed on SCIENTIFIC_CALIB_DATE"
    else .ok v
  else .ok v

/-- Line 131-135: `'   '` and `'nan'` cells become `'0'`. -/
def repl3 (x : AVal) : AVal :=
  if x = .vstr "   " then .vstr "0" else if x = .vstr "nan" then .vstr "0" else x

/-- Line 137: cast to `U1` (keep the first character). -/
def trunc1 (x : AVal) : AVal := .vstr (String.mk ((valToStr x).data.take 1))

/-- Lines 140-144: `' '` and `'n'` cells become `'0'`. -/
def repl1 (x : AVal) : AVal :=
  if x = .vstr " " then .vstr "0" else if x = .vstr "n" then .vstr "0" else x

/-- Lines 124-125: an object QC variable is first cast to str. -/
def qc_obj (v : AVar) : AVar :=
  if v.dtype = .O then cast_this v (some (astype_str v)) else v

/-- Lines 130-137: on a `U3` QC variable, the blank/"nan" cleanup followed by
the cast back to `U1`. -/
def qc_u3 (v : AVar) : AVar :=
  if v.dtype = .U 3 then
    { v with dtype := .U 1, vals := (v.vals.map repl3).map trunc1 }
  else v

/-- Lines 139-144: on a `U1` QC variable, the blank/'n' cleanup. -/
def qc_u1 (v : AVar) : AVar :=
  if v.dtype = .U 1 then { v with vals := v.vals.map repl1 } else v

/-- Line 147: the final integer cast, under the recovering wrapper. -/
def qc_cast (v : AVar) : AVar := cast_this v (astype_int v)

/-- Lines 123-147: the QC cleanup passes and final integer cast. -/
def step_qc (v : AVar) : AVar :=
  if qc_in_name v.name then qc_cast (qc_u1 (qc_u3 (qc_obj v))) else v

/-- The per-variable body of the loop of lines 91-150 (the branches run in
source order on the successively updated variable). -/
def castOne (v : AVar) : Except String AVar :=
  match step_datetime (step_int (step_str v)) with
  | .ok c => .ok (step_qc c)
  | .error e => .error e

/-- `cast_types`: the loop over all variables; an uncaught `to_datetime`
failure aborts the whole pass. -/
def cast_types : List AVar → Except String (List AVar)
  | [] => .ok []
  | v :: vs =>
    match castOne v with
    | .error e => .error e
    | .ok w =>
      match cast_types vs with
      | .error e => .error e
      | .ok ws => .ok (w :: ws)

/-! ### Stability of `cast_types` outputs (idempotence machinery) -/

theorem mapOption_parseIntVal_vint (ns : List Int) :
    mapOption parseIntVal (ns.map AVal.vint) = some ns := by
  induction ns with
  | nil => rfl
  | cons n t ih => simp [mapOption, parseIntVal, ih]

theorem astype_int_shape (v u : AVar) (h : astype_int v = some u) :
    ∃ ns : List Int, u = { v with dtype := .I, vals := ns.map AVal.vint } := by
  unfold astype_int at h
  cases hm : mapOption parseIntVal v.vals with
  | none => rw [hm] at h; simp at h
  | some ns =>
    rw [hm] at h
    simp at h
    exact ⟨ns, h.symm⟩

theorem astype_int_self (u : AVar) (hd : u.dtype = .I)
    (hv : ∃ ns : List Int, u.vals = ns.map AVal.vint) :
    astype_int u = some u := by
  obtain ⟨ns, hns⟩ := hv
  unfold astype_int
  rw [hns, mapOption_parseIntVal_vint]
  have : { u with dtype := DType.I, vals := ns.map AVal.vint } = u := by
    cases u
    simp_all
  simp [this]

theorem repl1_idem (x : AVal) : repl1 (repl1 x) = repl1 x := by
  unfold repl1
  split_ifs <;> simp_all

theorem int_datetime_disjoint (n : String) (h1 : n ∈ list_int) :
    n ∉ list_datetime := by
  intro h2
  simp only [list_int, List.mem_cons, List.not_mem_nil, or_false] at h1
  rcases h1 with rfl | rfl | rfl | rfl | rfl <;> exact absurd h2 (by decide)

theorem step_str_dtype_O (v : AVar) (h : (step_str v).dtype = .O) :
    step_str v = v := by
  unfold step_str at h ⊢
  by_cases hg : v.name ∈ list_str ∧ v.dtype = .O
  · rw [if_pos hg] at h
    exact absurd h (by simp [cast_this, astype_str])
  · exact if_neg hg

theorem step_int_cases (v : AVar) :
    (v.name ∉ list_int ∧ step_int v = v) ∨
      (v.name ∈ list_int ∧ astype_int v = none ∧ step_int v = v) ∨
      (v.name ∈ list_int ∧ ∃ u, astype_int v = some u ∧ step_int v = u) := by
  by_cases hm : v.name ∈ list_int
  · cases hai : astype_int v with
    | none =>
      refine Or.inr (Or.inl ⟨hm, rfl, ?_⟩)
      unfold step_int
      rw [if_pos hm, hai]
      rfl
    | some u =>
      refine Or.inr (Or.inr ⟨hm, u, rfl, ?_⟩)
      unfold step_int
      rw [if_pos hm, hai]
      rfl
  · exact Or.inl ⟨hm, by unfold step_int; exact if_neg hm⟩

theorem step_datetime_ok_char (v c : AVar) (h : step_datetime v = .ok c) :
    c = v ∨ (v.name ∈ list_datetime ∧ c.dtype = .M ∧ c.name = v.name) := by
  unfold step_datetime at h
  by_cases hg : v.name ∈ list_datetime ∧ v.dtype = .O
  · rw [if_pos hg] at h
    by_cases hc : v.conventions = some "YYYYMMDDHHMISS"
    · rw [if_pos hc] at h
      by_cases hv : v.vals ≠ []
      · rw [if_pos hv] at h
        cases hm : mapOption (fun x => toDatetimeFmt (prepU14 (valToStr x))) v.vals with
        | none => rw [hm] at h; exact absurd h (by simp)
        | some ts =>
          rw [hm] at h
          simp only [Except.ok.injEq] at h
          right
          exact ⟨hg.1, by rw [← h], by rw [← h]⟩
      · rw [if_neg hv] at h
        simp only [Except.ok.injEq] at h
        right
        exact ⟨hg.1, by rw [← h], by rw [← h]⟩
    · rw [if_neg hc] at h
      by_cases hs : v.name = "SCIENTIFIC_CALIB_DATE"
      · rw [if_pos hs] at h
        cases hm : mapOption (fun x => toDatetimeFmt (valToStr x)) (astype_str v).vals with
        | none => rw [hm] at h; exact absurd h (by simp)
        | some ts =>
          rw [hm] at h
          simp only [Except.ok.injEq] at h
          right
          exact ⟨hg.1, by rw [← h], by rw [← h]⟩
      · rw [if_neg hs] at h
        simp only [Except.ok.injEq] at h
        left
        exact h.symm
  · rw [if_neg hg] at h
    simp only [Except.ok.injEq] at h
    left
    exact h.symm

theorem qc_obj_name (v : AVar) : (qc_obj v).name = v.name := by
  unfold qc_obj
  by_cases h : v.dtype = .O
  · rw [if_pos h]; rfl
  · rw [if_neg h]

theorem qc_obj_dtype_ne_O (v : AVar) (h0 : v.dtype ≠ .O) : (qc_obj v).dtype ≠ .O := by
  unfold qc_obj
  by_cases h : v.dtype = .O
  · rw [if_pos h]
    simp [cast_this, astype_str]
  · rw [if_neg h]
    exact h0

theorem qc_u3_name (v : AVar) : (qc_u3 v).name = v.name := by
  unfold qc_u3
  by_cases h : v.dtype = .U 3
  · rw [if_pos h]
  · rw [if_neg h]

theorem qc_u3_dtype_ne_O (v : AVar) (h0 : v.dtype ≠ .O) : (qc_u3 v).dtype ≠ .O := by
  unfold qc_u3
  by_cases h : v.dtype = .U 3
  · rw [if_pos h]
    simp
  · rw [if_neg h]
    exact h0

theorem qc_u3_dtype_ne_U3 (v : AVar) : (qc_u3 v).dtype ≠ .U 3 := by
  unfold qc_u3
  by_cases h : v.dtype = .U 3
  · rw [if_pos h]
    simp
  · rw [if_neg h]
    exact h

theorem qc_u1_name (v : AVar) : (qc_u1 v).name = v.name := by
  unfold qc_u1
  by_cases h : v.dtype = .U 1
  · rw [if_pos h]
  · rw [if_neg h]

theorem qc_u1_dtype (v : AVar) : (qc_u1 v).dtype = v.dtype := by
  unfold qc_u1
  by_cases h : v.dtype = .U 1
  · rw [if_pos h]
  · rw [if_neg h]

theorem qc_u1_vals_repl1 (v : AVar) (h : (qc_u1 v).dtype = .U 1) :
    ∃ L : List AVal, (qc_u1 v).vals = L.map repl1 := by
  rw [qc_u1_dtype] at h
  unfold qc_u1
  rw [if_pos h]
  exact ⟨v.vals, rfl⟩

/-- Any variable whose dtype is not object, not `U3`, whose `U1` values are
already cleaned, and on which the final integer cast acts trivially
(either failing, or succeeding with no change) is a fixed point of the
per-variable pass. -/
theorem castOne_fixed (v : AVar) (h0 : v.dtype ≠ .O)
    (hint : v.name ∈ list_int → cast_this v (astype_int v) = v)
    (hqc : qc_in_name v.name = true →
      v.dtype ≠ .U 3 ∧ (v.dtype = .U 1 → v.vals.map repl1 = v.vals) ∧
        cast_this v (astype_int v) = v) :
    castOne v = .ok v := by
  have h1 : step_str v = v := by
    unfold step_str
    exact if_neg (fun hin => h0 hin.2)
  have h2 : step_int v = v := by
    unfold step_int
    by_cases hm : v.name ∈ list_int
    · rw [if_pos hm]
      exact hint hm
    · exact if_neg hm
  have h3 : step_datetime v = .ok v := by
    unfold step_datetime
    rw [if_neg (fun hin => h0 hin.2)]
  have h4 : step_qc v = v := by
    unfold step_qc
    by_cases hq : qc_in_name v.name = true
    · rw [if_pos hq]
      obtain ⟨hu3, hu1, hci⟩ := hqc hq
      have e1 : qc_obj v = v := by unfold qc_obj; exact if_neg h0
      have e2 : qc_u3 v = v := by unfold qc_u3; exact if_neg hu3
      have e3 : qc_u1 v = v := by
        unfold qc_u1
        by_cases hd : v.dtype = .U 1
        · rw [if_pos hd, hu1 hd]
        · exact if_neg hd
      rw [e1, e2, e3]
      unfold qc_cast
      exact hci
    · rw [if_neg hq]
  unfold castOne
  rw [h1, h2, h3]
  show Except.ok (step_qc v) = Except.ok v
  rw [h4]

theorem step_qc_char (c : AVar) (hq : qc_in_name c.name = true) :
    ∃ z : AVar, step_qc c = cast_this z (astype_int z) ∧ z.name = c.name ∧
      z.dtype ≠ .O ∧ z.dtype ≠ .U 3 ∧
      (z.dtype = .U 1 → ∃ L : List AVal, z.vals = L.map repl1) := by
  refine ⟨qc_u1 (qc_u3 (qc_obj c)), ?_, ?_, ?_, ?_, ?_⟩
  · unfold step_qc
    rw [if_pos hq]
    rfl
  · rw [qc_u1_name, qc_u3_name, qc_obj_name]
  · rw [qc_u1_dtype]
    by_cases hO : c.dtype = .O
    · exact qc_u3_dtype_ne_O _ (by unfold qc_obj; rw [if_pos hO]; simp [cast_this, astype_str])
    · exact qc_u3_dtype_ne_O _ (qc_obj_dtype_ne_O c hO)
  · rw [qc_u1_dtype]
    exact qc_u3_dtype_ne_U3 _
  · exact qc_u1_vals_repl1 _

/-- A successful `astype(int)` result is a fixed point of the whole
per-variable pass. -/
theorem castOne_fixed_of_int (z u : AVar) (hai : astype_int z = some u) :
    castOne u = .ok u := by
  obtain ⟨ns, rfl⟩ := astype_int_shape z u hai
  have hself : astype_int { z with dtype := DType.I, vals := ns.map AVal.vint } =
      some { z with dtype := DType.I, vals := ns.map AVal.vint } :=
    astype_int_self _ rfl ⟨ns, rfl⟩
  apply castOne_fixed
  · simp
  · intro _
    rw [cast_this, hself]
    rfl
  · intro _
    refine ⟨by simp, by simp, ?_⟩
    rw [cast_this, hself]
    rfl

/-- The core stability result: every variable produced by a successful pass
of the per-variable body is a fixed point of that body. -/
theorem castOne_stable (v w : AVar) (h : castOne v = .ok w) : castOne w = .ok w := by
  have horig := h
  unfold castOne at h
  cases hsd : step_datetime (step_int (step_str v)) with
  | error e =>
    rw [hsd] at h
    exact absurd h (by simp)
  | ok c =>
    rw [hsd] at h
    have hw : step_qc c = w := by
      have h2 : Except.ok (ε := String) (step_qc c) = .ok w := h
      injection h2
    by_cases hq : qc_in_name c.name = true
    · -- the QC branch ran: w is the result of the final recovering int cast
      obtain ⟨z, hz, hzname, hzO, hzU3, hzU1⟩ := step_qc_char c hq
      rw [hz] at hw
      cases hai : astype_int z with
      | none =>
        rw [hai] at hw
        have hwz : z = w := hw
        subst hwz
        apply castOne_fixed z hzO
        · intro _
          rw [cast_this, hai]
          rfl
        · intro _
          refine ⟨hzU3, ?_, ?_⟩
          · intro hU1
            obtain ⟨L, hL⟩ := hzU1 hU1
            rw [hL, List.map_map]
            apply List.map_congr_left
            intro x _
            exact repl1_idem x
          · rw [cast_this, hai]
            rfl
      | some u =>
        rw [hai] at hw
        have hwu : u = w := hw
        subst hwu
        exact castOne_fixed_of_int z u hai
    · -- the QC branch did not run: w = c
      have hwc : c = w := by
        rw [← hw]
        unfold step_qc
        rw [if_neg hq]
      subst hwc
      rcases step_datetime_ok_char _ _ hsd with hcb | ⟨hdt, hdM, hname⟩
      · -- c came through unchanged from the int step
        rcases step_int_cases (step_str v) with ⟨hm, hbi⟩ | ⟨hm, hnone, hbi⟩ |
          ⟨hm, u, hsome, hbi⟩
        · -- not an integer variable
          rw [hbi] at hcb
          by_cases hcO : c.dtype = .O
          · have : step_str v = v := step_str_dtype_O v (by rw [hcb] at hcO; exact hcO)
            rw [this] at hcb
            rw [hcb]
            rw [hcb] at horig
            exact horig
          · apply castOne_fixed c hcO
            · intro hmc
              rw [hcb] at hmc
              exact absurd hmc hm
            · intro hqc2
              exact absurd hqc2 hq
        · -- integer variable whose cast failed: left unchanged
          rw [hbi] at hcb
          by_cases hcO : c.dtype = .O
          · have : step_str v = v := step_str_dtype_O v (by rw [hcb] at hcO; exact hcO)
            rw [this] at hcb
            rw [hcb]
            rw [hcb] at horig
            exact horig
          · apply castOne_fixed c hcO
            · intro _
              rw [hcb, cast_this, hnone]
              rfl
            · intro hqc2
              exact absurd hqc2 hq
        · -- integer variable whose cast succeeded
          rw [hbi] at hcb
          rw [hcb]
          exact castOne_fixed_of_int _ _ hsome
      · -- c is a freshly parsed datetime variable
        apply castOne_fixed c (by rw [hdM]; simp)
        · intro hmc
          rw [hname] at hmc
          exact absurd hdt (int_datetime_disjoint _ hmc)
        · intro hqc2
          exact absurd hqc2 hq

/-- **C10 (confirmed).**  The type normalizer is idempotent: whenever
`cast_types` succeeds, running it again on the result changes nothing — no
variable's element type, no variable's values (the result is returned
exactly as is). -/
theorem cast_types_idempotent (ds ds' : List AVar) (h : cast_types ds = .ok ds') :
    cast_types ds' = .ok ds' := by
  induction ds generalizing ds' with
  | nil =>
    have hnil : ds' = [] := by
      unfold cast_types at h
      injection h with h2
      exact h2.symm
    subst hnil
    rfl
  | cons v vs ih =>
    unfold cast_types at h
    cases hc : castOne v with
    | error e =>
      rw [hc] at h
      exact absurd h (by simp)
    | ok w =>
      rw [hc] at h
      cases hr : cast_types vs with
      | error e =>
        rw [hr] at h
        exact absurd h (by simp)
      | ok ws =>
        rw [hr] at h
        have hds : ds' = w :: ws := by
          have h2 : Except.ok (ε := String) (w :: ws) = .ok ds' := h
          injection h2 with h3
          exact h3.symm
        subst hds
        have hw := castOne_stable v w hc
        have hws := ih ws hr
        unfold cast_types
        rw [hw, hws]

/-- Witness for `cast_types_idempotent`: a float CYCLE_NUMBER is cast to int
and a QC variable has its blank cleaned and cast to int on the first pass;
the second pass returns the result unchanged. -/
theorem cast_types_idempotent_witness :
    cast_types
        [⟨"CYCLE_NUMBER", .I, none, [.vint 3]⟩, ⟨"PRES_QC", .I, none, [.vint 0, .vint 1]⟩] =
      .ok [⟨"CYCLE_NUMBER", .I, none, [.vint 3]⟩, ⟨"PRES_QC", .I, none, [.vint 0, .vint 1]⟩] :=
  cast_types_idempotent
    [⟨"CYCLE_NUMBER", .F, none, [.vfloat (some 3)]⟩,
      ⟨"PRES_QC", .U 1, none, [.vstr " ", .vstr "1"]⟩]
    [⟨"CYCLE_NUMBER", .I, none, [.vint 3]⟩, ⟨"PRES_QC", .I, none, [.vint 0, .vint 1]⟩]
    rfl

/-- **C8 counterexample.**  The claim says a failure to cast a single
variable (including an unparseable value) never aborts the whole
normalization.  But the `pd.to_datetime` parses are outside the recovering
`cast_this` wrapper: a JULD variable carrying the packed-date convention
with one unparseable cell makes the whole `cast_types` pass raise. -/
theorem cast_types_datetime_abort :
    cast_types [⟨"JULD", .O, some "YYYYMMDDHHMISS", [.vstr "bad date value"]⟩] =
      .error "to_datetime failed on a packed date string" := rfl

/-- **C8 (amended).**  Failures of the `astype` casts are recovered locally:
a variable whose integer cast fails is left in its original type (a), and
the remaining variables are still processed, the failed variable passing
through unchanged (b).  However a `to_datetime` parse failure in the
date-time branch — which sits outside the `cast_this` recovery wrapper —
aborts the whole normalization pass (c). -/
theorem cast_failure_policy (v : AVar) (vs : List AVar)
    (hm : v.name ∈ list_int) (hs : v.name ∉ list_str)
    (hd : v.name ∉ list_datetime) (hq : qc_in_name v.name = false)
    (hfail : astype_int v = none) :
    castOne v = .ok v ∧
      (∀ ws, cast_types vs = .ok ws → cast_types (v :: vs) = .ok (v :: ws)) ∧
      (∀ (x : AVar) (e : String), castOne x = .error e →
        cast_types (x :: vs) = .error e) := by
  have h1 : step_str v = v := by
    unfold step_str
    exact if_neg (fun hin => hs hin.1)
  have h2 : step_int v = v := by
    unfold step_int
    rw [if_pos hm, hfail]
    rfl
  have h3 : step_datetime v = .ok v := by
    unfold step_datetime
    rw [if_neg (fun hin => hd hin.1)]
  have h4 : step_qc v = v := by
    unfold step_qc
    rw [if_neg (by simp [hq])]
  have ha : castOne v = .ok v := by
    unfold castOne
    rw [h1, h2, h3]
    show Except.ok (step_qc v) = Except.ok v
    rw [h4]
  refine ⟨ha, ?_, ?_⟩
  · intro ws hws
    unfold cast_types
    rw [ha, hws]
  · intro x e hx
    unfold cast_types
    rw [hx]

/-- Witness for `cast_failure_policy`: `CYCLE_NUMBER` holding the
unparseable text `"abcde"` fails its integer cast, is returned unchanged,
and the following `TEMP` variable is still processed. -/
theorem cast_failure_policy_witness :
    castOne ⟨"CYCLE_NUMBER", .U 5, none, [.vstr "abcde"]⟩ =
        .ok ⟨"CYCLE_NUMBER", .U 5, none, [.vstr "abcde"]⟩ ∧
      (∀ ws, cast_types [⟨"TEMP", .F, none, [.vfloat none]⟩] = .ok ws →
        cast_types
            [⟨"CYCLE_NUMBER", .U 5, none, [.vstr "abcde"]⟩,
              ⟨"TEMP", .F, none, [.vfloat none]⟩] =
          .ok (⟨"CYCLE_NUMBER", .U 5, none, [.vstr "abcde"]⟩ :: ws)) ∧
      (∀ (x : AVar) (e : String), castOne x = .error e →
        cast_types (x :: [⟨"TEMP", .F, none, [.vfloat none]⟩]) = .error e) :=
  cast_failure_policy ⟨"CYCLE_NUMBER", .U 5, none, [.vstr "abcde"]⟩
    [⟨"TEMP", .F, none, [.vfloat none]⟩]
    (by decide) (by decide) (by decide) rfl rfl
